import Mathlib

set_option maxHeartbeats 1000000
set_option maxRecDepth 40000

/-!
# Verification of the recurring-task lifecycle engine

Shallow embedding of the recurrence engine of the `TPS-obsidian-context-menu`
plugin (`MenuController` in the TypeScript source): recurrence-rule parsing
(`parseRecurrence`), next-occurrence search (`computeNextOccurrence`,
`incrementRecurrence`, `matchesRecurrence`, `getWeekdayCode`), successor
naming (`generateNextName`), and the completion workflow
(`handleRecurrenceCompletion`, `getRecurrenceValue`).

The TypeScript code manipulates JavaScript `Date` objects and `number`s.
Those platform builtins are not part of the repository, so they are embedded
as follows:

* A `Date` is modelled by `JSDate`: a proleptic Gregorian civil date
  (year, 0-based month, 1-based day of month, in line with the values
  returned by `getFullYear`/`getMonth`/`getDate`) plus milliseconds within
  the day.  `getTime` is derived via day counting from the Unix epoch.
  The model assumes a fixed UTC offset of zero (no DST), so local-time and
  UTC accessors coincide; the claims under verification are about calendar
  logic, not time zones.
* A JavaScript `number` that the engine ever stores or compares is a finite
  decimal literal value; it is modelled exactly by `JSNum`, a scaled decimal
  `n / 10^e`.  All values the claims touch (integers, `2.5`) are exactly
  representable IEEE doubles, so exact arithmetic is faithful.  Non-decimal
  numeric string forms (hex literals, `Infinity`, exponents) are outside the
  model and are mapped to NaN by `jsNumber`.
* String operations (`trim`, `toUpperCase`, `split`, the two regexes of
  `generateNextName`, the `^RRULE:` strip) are implemented on `List Char`
  for ASCII input, matching ECMAScript behaviour on the ASCII strings the
  engine processes.
-/

namespace TPS

/-! ## JavaScript numbers as exact scaled decimals -/

/-- A finite JavaScript number of the shape `n / 10 ^ e` (exact scaled
decimal).  `NaN` is represented externally as `Option.none` where needed. -/
structure JSNum where
  n : Int
  e : Nat
  deriving DecidableEq, Repr

/-- The number `1`. -/
def JSNum.one : JSNum := ⟨1, 0⟩

/-- The rational value of a `JSNum`. -/
def JSNum.val (q : JSNum) : Rat := (q.n : Rat) / (10 : Rat) ^ q.e

/-- A `JSNum` is JavaScript-falsy exactly when its value is `0`. -/
def JSNum.isZero (q : JSNum) : Bool := q.n = 0

/-- Whether a `JSNum` denotes an integer. -/
def JSNum.IsInt (q : JSNum) : Prop := ((10 : Int) ^ q.e) ∣ q.n

instance (q : JSNum) : Decidable q.IsInt := by unfold JSNum.IsInt; infer_instance

/-- `a % b === 0` for an integer `a` and a finite nonzero decimal `b`
(JavaScript `%` is exact remainder here): the remainder is `0` exactly when
`b` divides `a` over the rationals, i.e. when `b.n` divides `a * 10 ^ b.e`.
For `b = 0` the JavaScript result is `NaN`, which is `!== 0`. -/
def jsModIsZero (a : Int) (b : JSNum) : Bool :=
  if b.n = 0 then false else (a * (10 : Int) ^ b.e) % b.n = 0

/-! ## JavaScript `Date` -/

/-- A JavaScript `Date` in the engine's use: a civil proleptic-Gregorian
date plus milliseconds within the day.  `month` is 0-based (as returned by
`getMonth`), `day` is 1-based (as returned by `getDate`). -/
structure JSDate where
  year : Int
  month : Int
  day : Int
  msOfDay : Int
  deriving DecidableEq, Repr

/-- Proleptic Gregorian leap-year predicate (as used by JavaScript dates). -/
def isLeap (y : Int) : Prop := y % 4 = 0 ∧ (y % 100 ≠ 0 ∨ y % 400 = 0)

instance (y : Int) : Decidable (isLeap y) := by unfold isLeap; infer_instance

/-- Length of 0-based month `m` of year `y`. -/
def daysInMonth (y m : Int) : Int :=
  if m = 1 then (if isLeap y then 29 else 28)
  else if m = 3 ∨ m = 5 ∨ m = 8 ∨ m = 10 then 30
  else 31

/-- Days from the first of the year to the first of 0-based month `m`. -/
def daysBeforeMonth (y m : Int) : Int :=
  (if m = 0 then 0
   else if m = 1 then 31
   else if m = 2 then 59
   else if m = 3 then 90
   else if m = 4 then 120
   else if m = 5 then 151
   else if m = 6 then 181
   else if m = 7 then 212
   else if m = 8 then 243
   else if m = 9 then 273
   else if m = 10 then 304
   else 334) +
  (if 2 ≤ m ∧ isLeap y then 1 else 0)

/-- Leap years strictly before year `y` (relative count base). -/
def leapsBefore (y : Int) : Int := (y - 1) / 4 - (y - 1) / 100 + (y - 1) / 400

/-- Days from the Unix epoch (1970-01-01) to the first of year `y`. -/
def daysToYear (y : Int) : Int := 365 * (y - 1970) + leapsBefore y - leapsBefore 1970

/-- Day count of a civil date from the Unix epoch. -/
def JSDate.epochDay (d : JSDate) : Int :=
  daysToYear d.year + daysBeforeMonth d.year d.month + (d.day - 1)

/-- `Date.prototype.getTime`: milliseconds since the Unix epoch. -/
def JSDate.getTime (d : JSDate) : Int := d.epochDay * 86400000 + d.msOfDay

/-- `Date.prototype.getDay`: 0 = Sunday … 6 = Saturday
(1970-01-01 was a Thursday, code 4). -/
def JSDate.getDay (d : JSDate) : Int := (d.epochDay + 4) % 7

/-- `getMonth` (0-based month). -/
def JSDate.getMonth (d : JSDate) : Int := d.month

/-- `getDate` (1-based day of month). -/
def JSDate.getDate (d : JSDate) : Int := d.day

/-- `getFullYear`. -/
def JSDate.getFullYear (d : JSDate) : Int := d.year

/-- Well-formedness of the civil representation: exactly the values a real
`Date` object can report. -/
def JSDate.Valid (d : JSDate) : Prop :=
  0 ≤ d.month ∧ d.month ≤ 11 ∧ 1 ≤ d.day ∧ d.day ≤ daysInMonth d.year d.month ∧
  0 ≤ d.msOfDay ∧ d.msOfDay < 86400000

instance (d : JSDate) : Decidable d.Valid := by unfold JSDate.Valid; infer_instance

/-- `d.setDate(d.getDate() + 1)`: advance one calendar day. -/
def JSDate.addDay (d : JSDate) : JSDate :=
  if d.day < daysInMonth d.year d.month then { d with day := d.day + 1 }
  else if d.month < 11 then { d with month := d.month + 1, day := 1 }
  else { d with year := d.year + 1, month := 0, day := 1 }

/-- `d.setMonth(d.getMonth() + 1)`: per ECMAScript `MakeDay`, keep the
day-of-month and let it overflow into the following month when the target
month is shorter (e.g. Jan 31 + 1 month = Mar 2 or Mar 3). -/
def JSDate.addMonth (d : JSDate) : JSDate :=
  let y1 : Int := if d.month < 11 then d.year else d.year + 1
  let m1 : Int := if d.month < 11 then d.month + 1 else 0
  if d.day ≤ daysInMonth y1 m1 then { d with year := y1, month := m1 }
  else
    let y2 : Int := if m1 < 11 then y1 else y1 + 1
    let m2 : Int := if m1 < 11 then m1 + 1 else 0
    { d with year := y2, month := m2, day := d.day - daysInMonth y1 m1 }

/-! ## ASCII string primitives (ECMAScript behaviour on the engine's input) -/

/-- JavaScript whitespace for `String.prototype.trim`, ASCII subset. -/
def isJsWs (c : Char) : Bool := c = ' ' ∨ c = '\t' ∨ c = '\n' ∨ c = '\r'

/-- `String.prototype.trim` on the character list. -/
def trimChars (cs : List Char) : List Char :=
  ((cs.dropWhile isJsWs).reverse.dropWhile isJsWs).reverse

/-- ASCII `toUpperCase` on one character. -/
def upperChar (c : Char) : Char :=
  if 'a' ≤ c ∧ c ≤ 'z' then Char.ofNat (c.toNat - 32) else c

/-- ASCII `toUpperCase`. -/
def upperChars (cs : List Char) : List Char := cs.map upperChar

/-- `String.prototype.split(sep)` for a one-character separator: always
returns at least one (possibly empty) field. -/
def splitOnChar (sep : Char) : List Char → List (List Char)
  | [] => [[]]
  | c :: cs =>
      if c = sep then [] :: splitOnChar sep cs
      else
        match splitOnChar sep cs with
        | [] => [[c]]
        | f :: fs => (c :: f) :: fs

/-- Is `c` an ASCII digit? -/
def isDigitChar (c : Char) : Bool := '0' ≤ c ∧ c ≤ '9'

/-- Numeric value of a digit list (most significant first). -/
def digitsVal (cs : List Char) : Nat :=
  cs.foldl (fun acc c => 10 * acc + (c.toNat - 48)) 0

/-- `Number(v)` on a (pre-trimmed) string, restricted to finite decimal
literals: optional sign, integer digits, optional `.` and fraction digits
(`""` is the number `0`).  Returns `none` for NaN.  Hex/exponent/`Infinity`
forms are outside the model; the engine's inputs never use them. -/
def jsNumber (cs : List Char) : Option TPS.JSNum :=
  if cs = [] then some ⟨0, 0⟩ else
  let sign : Int := if cs.head? = some '-' then -1 else 1
  let body := if cs.head? = some '-' ∨ cs.head? = some '+' then cs.tail else cs
  let intPart := body.takeWhile isDigitChar
  let rest := body.dropWhile isDigitChar
  match rest with
  | [] => if intPart = [] then none
          else some ⟨sign * (digitsVal intPart : Int), 0⟩
  | '.' :: frac =>
      if frac.all isDigitChar ∧ (intPart ≠ [] ∨ frac ≠ []) then
        some ⟨sign * (digitsVal (intPart ++ frac) : Int), frac.length⟩
      else none
  | _ => none

/-! ## `parseRecurrence` -/

/-- The `ParsedRecurrence` record of `types.ts`: `freq: string | null`
(`none` is `null`), `interval: number`, `byDay: string[]`. -/
structure ParsedRecurrence where
  freq : Option (List Char)
  interval : JSNum
  byDay : List (List Char)
  deriving DecidableEq, Repr

/-- The inert initial rule `{ freq: null, interval: 1, byDay: [] }`. -/
def inertRule : ParsedRecurrence := ⟨none, JSNum.one, []⟩

/-- One iteration of the `forEach` body of `parseRecurrence`: process one
`KEY=VALUE` part against the accumulated result. -/
def parsePart (st : ParsedRecurrence) (part : List Char) : ParsedRecurrence :=
  match splitOnChar '=' part with
  | [] => st
  | [_] => st
  | key :: val :: _ =>
      if key = [] ∨ val = [] then st
      else
        let k := upperChars (trimChars key)
        let v := trimChars val
        if k = "FREQ".data then { st with freq := some (upperChars v) }
        else if k = "INTERVAL".data then
          match jsNumber v with
          | none => st
          | some num => if 0 < num.n then { st with interval := num } else st
        else if k = "BYDAY".data then
          { st with byDay := ((splitOnChar ',' (upperChars v)).map trimChars).filter (· ≠ []) }
        else st

/-- Removal of the leading case-insensitive `RRULE:` marker
(`.replace(/^RRULE:/i, '')`). -/
def stripRRuleMarker (cs : List Char) : List Char :=
  if upperChars (cs.take 6) = "RRULE:".data then cs.drop 6 else cs

/-- `parseRecurrence(rrule)`. -/
def parseRecurrence (rrule : String) : ParsedRecurrence :=
  let body := trimChars (stripRRuleMarker rrule.data)
  if body = [] then inertRule
  else (splitOnChar ';' body).foldl parsePart inertRule

/-! ## Occurrence search -/

/-- `parsed.freq || 'DAILY'` (`null` and the empty string are falsy). -/
def freqOrDaily : Option (List Char) → List Char
  | none => "DAILY".data
  | some f => if f = [] then "DAILY".data else f

/-- `!parsed.freq`: `freq` is `null` or the empty string. -/
def freqFalsy : Option (List Char) → Bool
  | none => true
  | some f => f = []

/-- `getWeekdayCode(day)`: two-letter code, out-of-range index gives the
`|| 'MO'` fallback. -/
def getWeekdayCode (day : Int) : List Char :=
  if day = 0 then "SU".data
  else if day = 1 then "MO".data
  else if day = 2 then "TU".data
  else if day = 3 then "WE".data
  else if day = 4 then "TH".data
  else if day = 5 then "FR".data
  else if day = 6 then "SA".data
  else "MO".data

/-- `incrementRecurrence(date, parsed)`: one month for MONTHLY, otherwise
one day. -/
def incrementRecurrence (d : JSDate) (p : ParsedRecurrence) : JSDate :=
  if freqOrDaily p.freq = "MONTHLY".data then d.addMonth else d.addDay

/-- `matchesRecurrence(candidate, base, parsed)`. -/
def matchesRecurrence (c b : JSDate) (p : ParsedRecurrence) : Bool :=
  let freq := freqOrDaily p.freq
  let interval := if p.interval.isZero then JSNum.one else p.interval
  let daysDiff := (c.getTime - b.getTime) / 86400000
  if daysDiff ≤ 0 then false
  else if freq = "DAILY".data then jsModIsZero daysDiff interval
  else if freq = "WEEKLY".data ∧ 0 < daysDiff then
    let weeksDiff := daysDiff / 7
    if ¬ (jsModIsZero weeksDiff interval = true) then false
    else if p.byDay ≠ [] then p.byDay.contains (getWeekdayCode c.getDay)
    else true
  else if freq = "MONTHLY".data then
    let monthsDiff := (c.getFullYear - b.getFullYear) * 12 + (c.getMonth - b.getMonth)
    if monthsDiff ≤ 0 then false
    else if ¬ (jsModIsZero monthsDiff interval = true) then false
    else c.getDate = b.getDate
  else freq = "DAILY".data

/-- The bounded `while` loop of `computeNextOccurrence`: step, test, repeat
while fuel remains. -/
def searchNext (p : ParsedRecurrence) (base : JSDate) : Nat → JSDate → Option JSDate
  | 0, _ => none
  | fuel + 1, cand =>
      let c := incrementRecurrence cand p
      if matchesRecurrence c base p then some c
      else searchNext p base fuel c

/-- The successive stepped candidates the loop would generate from `cand`. -/
def candChain (p : ParsedRecurrence) : Nat → JSDate → List JSDate
  | 0, _ => []
  | fuel + 1, cand =>
      let c := incrementRecurrence cand p
      c :: candChain p fuel c

/-- `computeNextOccurrence` after the anchor has been materialised as a
date: `null` for a falsy `freq`, otherwise the 500-iteration search. -/
def computeNextFrom (p : ParsedRecurrence) (base : JSDate) : Option JSDate :=
  if freqFalsy p.freq then none else searchNext p base 500 base

/-! ## `new Date(string)` and `toISOString` -/

/-- Read exactly `k` digits as a number, returning the remainder. -/
def readDigits (k : Nat) (cs : List Char) : Option (Nat × List Char) :=
  let ds := cs.take k
  if ds.length = k ∧ ds.all isDigitChar then some (digitsVal ds, cs.drop k) else none

/-- `new Date(s)` for the ISO-8601 forms the engine stores and reads:
`YYYY-MM-DD` with optional `THH:MM`, `:SS`, `.sss` and a final `Z`, with
range validation (an out-of-range component gives an Invalid Date, i.e.
`none`).  Under the model's zero UTC offset, forms with and without `Z`
denote the same instant.  Other `Date` input formats are outside the model. -/
def jsDateParse (s : String) : Option JSDate :=
  match readDigits 4 s.data with
  | none => none
  | some (y, r1) =>
  match r1 with
  | '-' :: r2 =>
    match readDigits 2 r2 with
    | none => none
    | some (mo, r3) =>
    match r3 with
    | '-' :: r4 =>
      match readDigits 2 r4 with
      | none => none
      | some (da, r5) =>
      let finish : Nat → Nat → Nat → Nat → Option JSDate := fun h mi se ms =>
        if 1 ≤ mo ∧ mo ≤ 12 ∧ 1 ≤ da ∧
            (da : Int) ≤ daysInMonth (y : Int) ((mo : Int) - 1) ∧
            h ≤ 23 ∧ mi ≤ 59 ∧ se ≤ 59 then
          some ⟨(y : Int), (mo : Int) - 1, (da : Int),
                (h : Int) * 3600000 + (mi : Int) * 60000 + (se : Int) * 1000 + (ms : Int)⟩
        else none
      match r5 with
      | [] => finish 0 0 0 0
      | 'T' :: r6 =>
        match readDigits 2 r6 with
        | none => none
        | some (h, r7) =>
        match r7 with
        | ':' :: r8 =>
          match readDigits 2 r8 with
          | none => none
          | some (mi, r9) =>
          match r9 with
          | [] => finish h mi 0 0
          | ['Z'] => finish h mi 0 0
          | ':' :: r10 =>
            match readDigits 2 r10 with
            | none => none
            | some (se, r11) =>
            match r11 with
            | [] => finish h mi se 0
            | ['Z'] => finish h mi se 0
            | '.' :: r12 =>
              match readDigits 3 r12 with
              | none => none
              | some (ms, r13) =>
              match r13 with
              | [] => finish h mi se ms
              | ['Z'] => finish h mi se ms
              | _ => none
            | _ => none
          | _ => none
        | _ => none
      | _ => none
    | _ => none
  | _ => none

/-- `computeNextOccurrence(rrule, scheduled)` with the anchor already put
through `new Date` (`none` models an Invalid Date, for which the function
returns `null`). -/
def computeNextOccurrenceAux (rrule : String) (base? : Option JSDate) : Option JSDate :=
  match base? with
  | none => none
  | some base => computeNextFrom (parseRecurrence rrule) base

/-- `computeNextOccurrence(rrule, scheduled)` on the raw strings. -/
def computeNextOccurrence (rrule scheduled : String) : Option JSDate :=
  computeNextOccurrenceAux rrule (jsDateParse scheduled)

/-! ## `generateNextName` -/

/-- The character of decimal digit `v % 10`. -/
def digitChar (v : Nat) : Char := Char.ofNat (48 + v % 10)

/-- Two-digit zero-padded numeral (fields are in range 0–99). -/
def pad2 (v : Nat) : List Char := [digitChar (v / 10), digitChar v]

/-- Three-digit zero-padded numeral (milliseconds, 0–999). -/
def pad3 (v : Nat) : List Char := [digitChar (v / 100), digitChar (v / 10), digitChar v]

/-- Four-digit zero-padded numeral (years 0–9999; `toISOString` switches to
an extended-year format outside that range, which the model excludes). -/
def pad4 (v : Nat) : List Char :=
  [digitChar (v / 1000), digitChar (v / 100), digitChar (v / 10), digitChar v]

/-- `nextDate.toISOString().slice(0, 10)`: the `YYYY-MM-DD` stamp of the
date (UTC calendar fields). -/
def dateStamp (d : JSDate) : List Char :=
  pad4 d.year.toNat ++ '-' :: pad2 (d.month + 1).toNat ++ '-' :: pad2 d.day.toNat

/-- The extension match `/(\.[^.\/\\]+)$/`: the part from the final dot on,
provided at least one character follows it and none of them is `.`, `/` or
`\`.  Returns `(base, ext)` with `ext = []` when there is no match. -/
def splitExt (cs : List Char) : List Char × List Char :=
  let r := cs.reverse
  let suf := r.takeWhile (fun c => c ≠ '.')
  match r.drop suf.length with
  | '.' :: before =>
      if suf ≠ [] ∧ suf.all (fun c => ¬ (c = '/' ∨ c = '\\')) then
        (before.reverse, '.' :: suf.reverse)
      else (cs, [])
  | _ => (cs, [])

/-- Does this 10-character list have the shape `\d{4}-\d{2}-\d{2}`? -/
def isDateShape (cs : List Char) : Bool :=
  match cs with
  | [a, b, c, d, e, f, g, h, i, j] =>
      isDigitChar a ∧ isDigitChar b ∧ isDigitChar c ∧ isDigitChar d ∧ e = '-' ∧
      isDigitChar f ∧ isDigitChar g ∧ h = '-' ∧ isDigitChar i ∧ isDigitChar j
  | _ => false

/-- The replace step
`baseName.replace(/(.*?)(\d{4}-\d{2}-\d{2})(?!.*\d{4}-\d{2}-\d{2})$/, ...)`:
the pattern is anchored at the end of the string (the lookahead is vacuous
there), so it fires exactly when the final 10 characters are date-shaped;
the lazy group-1 prefix is then everything before them, and the whole match
is rewritten to `prefix.trim() + ' ' + dateStr`. -/
def replaceTrailingDate (base dateStr : List Char) : List Char :=
  if 10 ≤ base.length ∧ isDateShape (base.drop (base.length - 10)) then
    trimChars (base.take (base.length - 10)) ++ ' ' :: dateStr
  else base

/-- `generateNextName(originalName, nextDate)`. -/
def generateNextName (originalName : String) (nextDate : JSDate) : String :=
  let dateStr := dateStamp nextDate
  let (rawBase, ext) := splitExt originalName.data
  let baseName := trimChars rawBase
  let replaced := replaceTrailingDate baseName dateStr
  if replaced ≠ baseName then ⟨trimChars replaced ++ ext⟩
  else ⟨baseName ++ (if baseName ≠ [] then [' '] else []) ++ dateStr ++ ext⟩

/-! ## Frontmatter values and the completion workflow -/

/-- A YAML-frontmatter value as JavaScript sees it. -/
inductive JSVal where
  | undefv : JSVal
  | nullv : JSVal
  | boolv : Bool → JSVal
  | num : JSNum → JSVal
  | str : String → JSVal
  | list : List String → JSVal
  deriving DecidableEq, Repr

/-- JavaScript truthiness test (`!v` is `jsFalsy v`): `undefined`, `null`,
`false`, `0` and `''` are falsy; every object (including the empty array)
is truthy. -/
def jsFalsy : JSVal → Bool
  | .undefv => true
  | .nullv => true
  | .boolv b => !b
  | .num q => q.isZero
  | .str s => s = ""
  | .list _ => false

/-- A frontmatter record: field-name/value association list (first match
wins; a missing key reads as `undefined`). -/
abbrev FM := List (String × JSVal)

/-- Property read `fm.key`. -/
def fmGet (fm : FM) (key : String) : JSVal :=
  match fm.find? (fun p => p.1 = key) with
  | some p => p.2
  | none => JSVal.undefv

/-- Set a field (used to model `fm[key] = value`). -/
def fmSet (fm : FM) (key : String) (v : JSVal) : FM :=
  if (fm.find? (fun p => p.1 = key)).isSome then
    fm.map (fun p => if p.1 = key then (p.1, v) else p)
  else fm ++ [(key, v)]

/-- Delete a field (used to model `delete fm[key]`). -/
def fmDelete (fm : FM) (key : String) : FM :=
  fm.filter (fun p => p.1 ≠ key)

/-- `getRecurrenceValue(fm)`: `fm.recurrenceRule || fm.recurrence`, then
`typeof val === 'string' ? val : ''`.  (The `!fm` guard is the `undefined`
argument case; the model always has a record.) -/
def getRecurrenceValue (fm : FM) : String :=
  let val := if jsFalsy (fmGet fm "recurrenceRule") then fmGet fm "recurrence"
             else fmGet fm "recurrenceRule"
  match val with
  | .str s => s
  | _ => ""

/-- `updateFrontmatterValue(file, key, value)` applied to a record:
`value == null || value === ''` deletes the key, otherwise sets it. -/
def updateFrontmatterValue (fm : FM) (key : String) (v : JSVal) : FM :=
  if v = .undefv ∨ v = .nullv ∨ v = .str "" then fmDelete fm key
  else fmSet fm key v

/-! ### Converting epoch milliseconds back to a civil date
(`new Date(number)` / the accessors used by `toISOString`).  Hinnant's
`civil_from_days` algorithm; used only on the successor-creation path. -/

/-- Civil date (year, 1-based month, day) of an epoch day number. -/
def civilFromDays (z0 : Int) : Int × Int × Int :=
  let z := z0 + 719468
  let era := z / 146097
  let doe := z - era * 146097
  let yoe := (doe - doe / 1460 + doe / 36524 - doe / 146096) / 365
  let y := yoe + era * 400
  let doy := doe - (365 * yoe + yoe / 4 - yoe / 100)
  let mp := (5 * doy + 2) / 153
  let d := doy - (153 * mp + 2) / 5 + 1
  let m := if mp < 10 then mp + 3 else mp - 9
  (if m ≤ 2 then y + 1 else y, m, d)

/-- `new Date(t)` for an integral millisecond timestamp. -/
def msToDate (t : Int) : JSDate :=
  let days := t / 86400000
  let ms := t % 86400000
  let c := civilFromDays days
  ⟨c.1, c.2.1 - 1, c.2.2, ms⟩

/-- `toISOString()` (years 0–9999; the engine's dates are in range). -/
def toISOString (d : JSDate) : String :=
  ⟨dateStamp d ++ 'T' :: pad2 (d.msOfDay / 3600000).toNat ++
   ':' :: pad2 (d.msOfDay / 60000 % 60).toNat ++
   ':' :: pad2 (d.msOfDay / 1000 % 60).toNat ++
   '.' :: pad3 (d.msOfDay % 1000).toNat ++ ['Z']⟩

/-- `Number(value)` on a frontmatter value: string via the numeric-literal
grammar, `null → 0`, booleans to 0/1, `undefined → NaN`.  Array-to-number
coercion (via `toString`) is outside the model and maps to NaN. -/
def jsToNumber : JSVal → Option JSNum
  | .undefv => none
  | .nullv => some ⟨0, 0⟩
  | .boolv b => some (if b then ⟨1, 0⟩ else ⟨0, 0⟩)
  | .num q => some q
  | .str s => jsNumber (trimChars s.data)
  | .list _ => none

/-- Truncation of a `JSNum` toward zero (JavaScript `ToIntegerOrInfinity`,
applied when a fractional millisecond count reaches a `Date`). -/
def JSNum.toIntTrunc (q : JSNum) : Int := q.n.tdiv ((10 : Int) ^ q.e)

/-- `computeEndISO(fm)` with `fm = { scheduled, timeEstimate }`:
empty string when `scheduled` is falsy/unparseable or `timeEstimate` is
falsy/NaN, otherwise `scheduled + timeEstimate` minutes as an ISO string. -/
def computeEndISO (scheduled : String) (timeEstimate : Option JSNum) : String :=
  if scheduled = "" then ""
  else
    match jsDateParse scheduled with
    | none => ""
    | some d =>
      match timeEstimate with
      | none => ""
      | some te =>
        if te.isZero then ""
        else toISOString (msToDate (d.getTime + (JSNum.mk (te.n * 60000) te.e).toIntTrunc))

/-- The vault: path ↦ artifact frontmatter (the artifact body plays no role
in the claims; `copy` duplicates the record). -/
abbrev Vault := List (String × FM)

/-- `vault.getAbstractFileByPath`. -/
def vaultGet (st : Vault) (path : String) : Option FM :=
  match st.find? (fun p => p.1 = path) with
  | some p => some p.2
  | none => none

/-- Replace the record stored at `path`. -/
def vaultSet (st : Vault) (path : String) (fm : FM) : Vault :=
  st.map (fun p => if p.1 = path then (p.1, fm) else p)

/-- `updateFrontmatterValue` lifted to the vault. -/
def vaultUpdateFM (st : Vault) (path : String) (key : String) (v : JSVal) : Vault :=
  match vaultGet st path with
  | none => st
  | some fm => vaultSet st path (updateFrontmatterValue fm key v)

/-- The anchor value handed to `new Date` inside `computeNextOccurrence`:
the stored `scheduled` field is a string per the `FrontmatterData` type
(numeric timestamps would also be accepted by `Date`; other object shapes
are outside the model and give an Invalid Date). -/
def jsValToDate : JSVal → Option JSDate
  | .str s => jsDateParse s
  | .num q => some (msToDate q.toIntTrunc)
  | _ => none

/-- Obsidian's `TFile.basename`: file name without the final extension. -/
def basenameOf (name : String) : String := ⟨(splitExt name.data).1⟩

/-- `handleRecurrenceCompletion(file, fm)` as a vault transition.  The file
is given by its `path`, `name` and `file.parent?.path || ''`.  Returns the
vault unchanged on every early-exit path (no rule, no/invalid `scheduled`,
no occurrence, destination collision). -/
def handleRecurrenceCompletion (st : Vault) (filePath fileName parentPath : String)
    (fm : FM) : Vault :=
  let recurrence := getRecurrenceValue fm
  if recurrence = "" then st
  else
    let scheduledVal := fmGet fm "scheduled"
    if jsFalsy scheduledVal then st
    else
      match computeNextOccurrenceAux recurrence (jsValToDate scheduledVal) with
      | none => st
      | some nextDate =>
        let newName := generateNextName fileName nextDate
        let newPath := if parentPath ≠ "" then parentPath ++ "/" ++ newName else newName
        if (vaultGet st newPath).isSome then st
        else
          -- `vault.copy(file, newPath)` (a missing source would reject the
          -- promise; the claims never exercise that path)
          match vaultGet st filePath with
          | none => st
          | some srcFM =>
            let st1 := st ++ [(newPath, srcFM)]
            -- `vault.getAbstractFileByPath(newPath)` now succeeds
            let st2 := vaultUpdateFM st1 newPath "recurrenceRule" .nullv
            let st3 := vaultUpdateFM st2 newPath "recurrence" .nullv
            let st4 := vaultUpdateFM st3 newPath "status" (.str "open")
            let newScheduledISO := toISOString nextDate
            let st5 := vaultUpdateFM st4 newPath "scheduled" (.str newScheduledISO)
            let endISO := computeEndISO newScheduledISO (jsToNumber (fmGet fm "timeEstimate"))
            let st6 := vaultUpdateFM st5 newPath "sheduledEnd"
              (if endISO = "" then .nullv else .str endISO)
            vaultUpdateFM st6 newPath "title" (.str (basenameOf newName))

/-! ## Calendar arithmetic lemmas -/

theorem daysInMonth_bounds (y m : Int) :
    28 ≤ daysInMonth y m ∧ daysInMonth y m ≤ 31 := by
  unfold daysInMonth
  split_ifs <;> omega

theorem daysBeforeMonth_step (y m : Int) (h0 : 0 ≤ m) (h1 : m ≤ 10) :
    daysBeforeMonth y (m + 1) = daysBeforeMonth y m + daysInMonth y m := by
  interval_cases m <;> (unfold daysBeforeMonth daysInMonth) <;> norm_num <;>
    split_ifs <;> omega

theorem daysBeforeMonth_zero (y : Int) : daysBeforeMonth y 0 = 0 := by
  unfold daysBeforeMonth; norm_num

theorem daysBeforeMonth_eleven (y : Int) :
    daysBeforeMonth y 11 = 334 + (if isLeap y then 1 else 0) := by
  unfold daysBeforeMonth; norm_num

theorem daysInMonth_eleven (y : Int) : daysInMonth y 11 = 31 := by
  unfold daysInMonth; norm_num

theorem daysToYear_step (y : Int) :
    daysToYear (y + 1) = daysToYear y + 365 + (if isLeap y then 1 else 0) := by
  unfold daysToYear leapsBefore
  by_cases hl : isLeap y <;>
    simp only [hl, if_true, if_false, reduceIte] <;> unfold isLeap at hl <;> omega

theorem JSDate.addDay_epochDay (d : JSDate) (h : d.Valid) :
    d.addDay.epochDay = d.epochDay + 1 := by
  obtain ⟨hm0, hm1, hd0, hd1, _, _⟩ := h
  unfold JSDate.addDay
  split_ifs with h1 h2
  · unfold JSDate.epochDay; dsimp only; omega
  · unfold JSDate.epochDay; dsimp only
    rw [daysBeforeMonth_step d.year d.month hm0 (by omega)]
    omega
  · have hm : d.month = 11 := by omega
    rw [hm] at hd1 h1
    rw [daysInMonth_eleven] at hd1 h1
    unfold JSDate.epochDay; dsimp only
    rw [daysToYear_step, daysBeforeMonth_zero, hm, daysBeforeMonth_eleven]
    split_ifs <;> omega

theorem JSDate.addDay_valid (d : JSDate) (h : d.Valid) : d.addDay.Valid := by
  obtain ⟨hm0, hm1, hd0, hd1, hs0, hs1⟩ := h
  have h28 := daysInMonth_bounds d.year d.month
  have h28a := daysInMonth_bounds d.year (d.month + 1)
  have h28b := daysInMonth_bounds (d.year + 1) 0
  unfold JSDate.addDay
  split_ifs with h1 h2 <;> (unfold JSDate.Valid; dsimp only) <;>
    refine ⟨by omega, by omega, by omega, ?_, hs0, hs1⟩ <;> omega

theorem JSDate.addDay_msOfDay (d : JSDate) : d.addDay.msOfDay = d.msOfDay := by
  unfold JSDate.addDay
  split_ifs <;> rfl

theorem JSDate.addMonth_valid (d : JSDate) (h : d.Valid) : d.addMonth.Valid := by
  obtain ⟨hm0, hm1, hd0, hd1, hs0, hs1⟩ := h
  have h28 := daysInMonth_bounds d.year d.month
  have h28a := daysInMonth_bounds d.year (d.month + 1)
  have h28b := daysInMonth_bounds (d.year + 1) 0
  have h28c := daysInMonth_bounds d.year (d.month + 1 + 1)
  have h28d := daysInMonth_bounds (d.year + 1) 1
  have h28e := daysInMonth_bounds (d.year + 1) (0 + 1)
  unfold JSDate.addMonth
  dsimp only
  split_ifs <;> (unfold JSDate.Valid; dsimp only) <;>
    refine ⟨by omega, by omega, by omega, ?_, hs0, hs1⟩ <;> omega

theorem JSDate.addMonth_msOfDay (d : JSDate) : d.addMonth.msOfDay = d.msOfDay := by
  unfold JSDate.addMonth
  dsimp only
  split_ifs <;> rfl

/-! ## Month-index monotonicity -/

/-- Epoch day of the first of the month with absolute month index `i`
(`i = year * 12 + month`). -/
def monthF (i : Int) : Int := daysToYear (i / 12) + daysBeforeMonth (i / 12) (i % 12)

theorem monthF_step (i : Int) :
    monthF (i + 1) = monthF i + daysInMonth (i / 12) (i % 12) := by
  by_cases hc : i % 12 ≤ 10
  · have hr0 : 0 ≤ i % 12 := by omega
    have h1 : (i + 1) / 12 = i / 12 := by omega
    have h2 : (i + 1) % 12 = i % 12 + 1 := by omega
    unfold monthF
    rw [h1, h2, daysBeforeMonth_step _ _ hr0 hc]
    omega
  · have hr : i % 12 = 11 := by omega
    have h1 : (i + 1) / 12 = i / 12 + 1 := by omega
    have h2 : (i + 1) % 12 = 0 := by omega
    unfold monthF
    rw [h1, h2, daysBeforeMonth_zero, daysToYear_step, hr, daysBeforeMonth_eleven,
      daysInMonth_eleven]
    split_ifs <;> omega

theorem monthF_mono (i : Int) : ∀ k : Nat,
    monthF i + 28 * ((k : Int) + 1) ≤ monthF (i + ((k : Int) + 1))
  | 0 => by
      have hs := monthF_step i
      have hb := daysInMonth_bounds (i / 12) (i % 12)
      push_cast
      omega
  | (k + 1) => by
      have ih := monthF_mono i k
      have hs := monthF_step (i + ((k : Int) + 1))
      have hb := daysInMonth_bounds ((i + ((k : Int) + 1)) / 12) ((i + ((k : Int) + 1)) % 12)
      have harg : i + ((k : Int) + 1 + 1) = (i + ((k : Int) + 1)) + 1 := by ring
      push_cast at ih hs hb ⊢
      rw [harg]
      omega

theorem JSDate.epochDay_monthF (d : JSDate) (h : d.Valid) :
    d.epochDay = monthF (d.year * 12 + d.month) + (d.day - 1) := by
  obtain ⟨hm0, hm1, _, _, _, _⟩ := h
  have h1 : (d.year * 12 + d.month) / 12 = d.year := by omega
  have h2 : (d.year * 12 + d.month) % 12 = d.month := by omega
  unfold monthF JSDate.epochDay
  rw [h1, h2]

/-- A later month index with the same day-of-month means a timestamp at
least one full day later. -/
theorem getTime_ge_of_month_lt (c b : JSDate) (hc : c.Valid) (hb : b.Valid)
    (hm : b.year * 12 + b.month < c.year * 12 + c.month) (hd : c.day = b.day) :
    86400000 ≤ c.getTime - b.getTime := by
  have hec := JSDate.epochDay_monthF c hc
  have heb := JSDate.epochDay_monthF b hb
  obtain ⟨_, _, _, _, hcs0, hcs1⟩ := hc
  obtain ⟨_, _, _, _, hbs0, hbs1⟩ := hb
  set ib := b.year * 12 + b.month with hib
  set ic := c.year * 12 + c.month with hic
  have hk : ∃ k : Nat, ic = ib + ((k : Int) + 1) := by
    refine ⟨(ic - ib - 1).toNat, ?_⟩
    omega
  obtain ⟨k, hkk⟩ := hk
  have hmono := monthF_mono ib k
  rw [← hkk] at hmono
  have h28 : monthF ib + 28 ≤ monthF ic := by
    have : (0 : Int) ≤ (k : Int) := Int.natCast_nonneg k
    omega
  unfold JSDate.getTime
  rw [hec, heb, hd]
  omega

/-! ## Search-loop lemmas -/

theorem searchNext_eq_find (p : ParsedRecurrence) (b : JSDate) :
    ∀ (fuel : Nat) (cand : JSDate),
      searchNext p b fuel cand =
        (candChain p fuel cand).find? (fun c => matchesRecurrence c b p)
  | 0, _ => rfl
  | fuel + 1, cand => by
      unfold searchNext candChain
      rw [List.find?_cons]
      by_cases h : matchesRecurrence (incrementRecurrence cand p) b p
      · simp [h]
      · simp only [h, if_false, Bool.false_eq_true, reduceIte]
        exact searchNext_eq_find p b fuel (incrementRecurrence cand p)

theorem candChain_length (p : ParsedRecurrence) :
    ∀ (fuel : Nat) (cand : JSDate), (candChain p fuel cand).length = fuel
  | 0, _ => rfl
  | fuel + 1, cand => by
      unfold candChain
      simp [candChain_length p fuel]

/-- If every candidate up to position `n` fails and the one at position
`n + 1` matches, the loop returns exactly that candidate (positions are
1-based step counts). -/
theorem searchNext_first (p : ParsedRecurrence) (b : JSDate) (n : Nat) :
    ∀ (fuel : Nat) (cand : JSDate), n < fuel →
      (∀ j : Nat, j < n →
        matchesRecurrence ((fun d => incrementRecurrence d p)^[j + 1] cand) b p = false) →
      matchesRecurrence ((fun d => incrementRecurrence d p)^[n + 1] cand) b p = true →
      searchNext p b fuel cand =
        some ((fun d => incrementRecurrence d p)^[n + 1] cand) := by
  induction n with
  | zero =>
      intro fuel cand hfuel _ hmatch
      match fuel, hfuel with
      | fuel + 1, _ =>
        unfold searchNext
        have hm1 : matchesRecurrence (incrementRecurrence cand p) b p = true := by
          simpa using hmatch
        simp [hm1]
  | succ n ih =>
      intro fuel cand hfuel hfail hmatch
      match fuel, hfuel with
      | fuel + 1, hfuel =>
        unfold searchNext
        have h0 : matchesRecurrence (incrementRecurrence cand p) b p = false := by
          have := hfail 0 (Nat.succ_pos n)
          simpa using this
        simp only [h0, Bool.false_eq_true, if_false, reduceIte]
        have hshift : ∀ j : Nat,
            (fun d => incrementRecurrence d p)^[j + 1] (incrementRecurrence cand p) =
            (fun d => incrementRecurrence d p)^[j + 1 + 1] cand := by
          intro j
          exact (Function.iterate_succ_apply (fun d => incrementRecurrence d p)
            (j + 1) cand).symm
        refine Eq.trans (ih fuel (incrementRecurrence cand p) (by omega) ?_ ?_) ?_
        · intro j hj
          rw [hshift j]
          exact hfail (j + 1) (by omega)
        · rw [hshift n]
          exact hmatch
        · rw [hshift n]

/-! ## Characterisations of matching and stepping -/

theorem JSDate.addDay_getTime (d : JSDate) (h : d.Valid) :
    d.addDay.getTime = d.getTime + 86400000 := by
  unfold JSDate.getTime
  rw [JSDate.addDay_epochDay d h, JSDate.addDay_msOfDay d]
  ring

/-- For a non-MONTHLY rule the step is a plain calendar day. -/
theorem incrementRecurrence_daily (d : JSDate) (p : ParsedRecurrence)
    (hp : freqOrDaily p.freq ≠ "MONTHLY".data) :
    incrementRecurrence d p = d.addDay := by
  unfold incrementRecurrence
  rw [if_neg hp]

/-- Iterating the daily step: validity, exact time advance, preserved time
of day. -/
theorem inc_daily_iterate (p : ParsedRecurrence)
    (hp : freqOrDaily p.freq ≠ "MONTHLY".data) (d : JSDate) (h : d.Valid) :
    ∀ k : Nat,
      ((fun x => incrementRecurrence x p)^[k] d).Valid ∧
      ((fun x => incrementRecurrence x p)^[k] d).getTime =
        d.getTime + (k : Int) * 86400000 ∧
      ((fun x => incrementRecurrence x p)^[k] d).msOfDay = d.msOfDay
  | 0 => by
      simp only [Function.iterate_zero_apply]
      exact ⟨h, by push_cast; ring, by trivial⟩
  | k + 1 => by
      obtain ⟨hv, ht, hm⟩ := inc_daily_iterate p hp d h k
      rw [Function.iterate_succ_apply']
      set x := (fun x => incrementRecurrence x p)^[k] d with hx
      rw [incrementRecurrence_daily x p hp]
      refine ⟨JSDate.addDay_valid x hv, ?_, ?_⟩
      · rw [JSDate.addDay_getTime x hv, ht]
        push_cast
        ring
      · rw [JSDate.addDay_msOfDay x, hm]

theorem jsModIsZero_int (a : Int) (n : Int) (hn : n ≠ 0) :
    jsModIsZero a ⟨n, 0⟩ = true ↔ n ∣ a := by
  unfold jsModIsZero
  simp only [hn, if_neg, pow_zero, mul_one, if_false]
  constructor
  · intro hb
    exact Int.dvd_of_emod_eq_zero (by simpa using hb)
  · intro hd
    simp [Int.emod_eq_zero_of_dvd hd]

/-- `matchesRecurrence` for a DAILY rule with positive integer interval. -/
theorem matches_daily_iff (c b : JSDate) (p : ParsedRecurrence) (n : Nat)
    (hf : p.freq = some "DAILY".data)
    (hi : p.interval = ⟨(n : Int), 0⟩) (hn : 1 ≤ n) :
    (matchesRecurrence c b p = true ↔
      (0 < (c.getTime - b.getTime) / 86400000 ∧
        (n : Int) ∣ (c.getTime - b.getTime) / 86400000)) := by
  have hfr : freqOrDaily p.freq = "DAILY".data := by rw [hf]; decide
  have hnz : ((n : Int)) ≠ 0 := by
    have : (1 : Int) ≤ (n : Int) := by exact_mod_cast hn
    omega
  have hzero : p.interval.isZero = false := by
    rw [hi]
    unfold JSNum.isZero
    simp [hnz]
  unfold matchesRecurrence
  rw [hfr, hzero, hi]
  simp only [Bool.false_eq_true, if_false, reduceIte]
  by_cases hdd : (c.getTime - b.getTime) / 86400000 ≤ 0
  · simp only [hdd, if_true, reduceIte]
    constructor
    · intro hc
      exact absurd hc (by simp)
    · intro ⟨h1, _⟩
      omega
  · simp only [hdd, if_false, reduceIte]
    rw [jsModIsZero_int _ _ hnz]
    constructor
    · intro hd
      exact ⟨by omega, hd⟩
    · intro ⟨_, hd⟩
      exact hd

/-! ## Claim C1: DAILY rules -/

/-- C1.  For every rule with `FREQ=DAILY` and integer interval `n`,
`1 ≤ n ≤ 500`, and every valid anchor, the next occurrence is the anchor
advanced by exactly `n` calendar days at the same time of day — the first
stepped candidate whose whole-day difference from the anchor is a positive
multiple of `n` (the search returns the `n`-th one-day step). -/
theorem claim_C1 (p : ParsedRecurrence) (n : Nat) (b : JSDate)
    (hf : p.freq = some "DAILY".data)
    (hi : p.interval = ⟨(n : Int), 0⟩)
    (hn1 : 1 ≤ n) (hn500 : n ≤ 500)
    (hb : b.Valid) :
    computeNextFrom p b = some ((fun d => incrementRecurrence d p)^[n] b) ∧
    ((fun d => incrementRecurrence d p)^[n] b).epochDay = b.epochDay + (n : Int) ∧
    ((fun d => incrementRecurrence d p)^[n] b).msOfDay = b.msOfDay := by
  have hfr : freqOrDaily p.freq = "DAILY".data := by rw [hf]; decide
  have hpm : freqOrDaily p.freq ≠ "MONTHLY".data := by rw [hfr]; decide
  have hff : freqFalsy p.freq = false := by rw [hf]; decide
  have hnz : ((n : Int)) ≠ 0 := by
    have : (1 : Int) ≤ (n : Int) := by exact_mod_cast hn1
    omega
  have hiter := inc_daily_iterate p hpm b hb
  -- whole-day difference of the k-th stepped candidate is exactly k
  have hdd : ∀ k : Nat,
      (((fun d => incrementRecurrence d p)^[k] b).getTime - b.getTime) / 86400000 =
        (k : Int) := by
    intro k
    obtain ⟨_, ht, _⟩ := hiter k
    rw [ht]
    have : b.getTime + (k : Int) * 86400000 - b.getTime = (k : Int) * 86400000 := by ring
    rw [this]
    exact Int.mul_ediv_cancel _ (by norm_num)
  -- the matching test at step k is "n divides k" (for k ≥ 1)
  have hmat : ∀ k : Nat,
      matchesRecurrence ((fun d => incrementRecurrence d p)^[k] b) b p = true ↔
        (0 < (k : Int) ∧ (n : Int) ∣ (k : Int)) := by
    intro k
    rw [matches_daily_iff _ _ p n hf hi hn1, hdd k]
  have hmatch : matchesRecurrence ((fun d => incrementRecurrence d p)^[n] b) b p = true := by
    rw [hmat n]
    exact ⟨by exact_mod_cast hn1, dvd_refl _⟩
  have hfail : ∀ j : Nat, j < n - 1 →
      matchesRecurrence ((fun d => incrementRecurrence d p)^[j + 1] b) b p = false := by
    intro j hj
    rw [← Bool.not_eq_true, hmat (j + 1)]
    rintro ⟨_, hdvd⟩
    have hle : (n : Int) ≤ (j : Int) + 1 := Int.le_of_dvd (by omega) hdvd
    omega
  have hrun : searchNext p b 500 b =
      some ((fun d => incrementRecurrence d p)^[(n - 1) + 1] b) := by
    refine searchNext_first p b (n - 1) 500 b (by omega) hfail ?_
    rw [show n - 1 + 1 = n from by omega]
    exact hmatch
  refine ⟨?_, ?_, ?_⟩
  · unfold computeNextFrom
    rw [hff]
    simp only [Bool.false_eq_true, if_false, reduceIte]
    rw [hrun, show n - 1 + 1 = n from by omega]
  · obtain ⟨_, ht, hm⟩ := hiter n
    have hgt : ((fun d => incrementRecurrence d p)^[n] b).getTime =
        b.getTime + (n : Int) * 86400000 := ht
    unfold JSDate.getTime at hgt
    rw [hm] at hgt
    omega
  · exact (hiter n).2.2

/-- Witness for C1: instantiates the theorem with the parsed rule
`RRULE:FREQ=DAILY;INTERVAL=2` and anchor 2024-01-01T09:00, obtaining the
spec's expected occurrence 2024-01-03T09:00. -/
theorem claim_C1_witness :
    (parseRecurrence "RRULE:FREQ=DAILY;INTERVAL=2").freq = some "DAILY".data ∧
    (parseRecurrence "RRULE:FREQ=DAILY;INTERVAL=2").interval = ⟨((2 : Nat) : Int), 0⟩ ∧
    jsDateParse "2024-01-01T09:00" = some ⟨2024, 0, 1, 32400000⟩ ∧
    (JSDate.mk 2024 0 1 32400000).Valid ∧
    computeNextFrom (parseRecurrence "RRULE:FREQ=DAILY;INTERVAL=2")
      ⟨2024, 0, 1, 32400000⟩ = some ⟨2024, 0, 3, 32400000⟩ := by
  refine ⟨by decide, by decide, by decide, by decide, ?_⟩
  have h := claim_C1 (parseRecurrence "RRULE:FREQ=DAILY;INTERVAL=2") 2
    ⟨2024, 0, 1, 32400000⟩ (by decide) (by decide) (by decide) (by decide) (by decide)
  rw [h.1]
  decide

/-! ## Claim C2: WEEKLY rules with a weekday filter -/

/-- Any value the search returns satisfies the matching test. -/
theorem computeNextFrom_sound (p : ParsedRecurrence) (b c : JSDate)
    (h : computeNextFrom p b = some c) : matchesRecurrence c b p = true := by
  unfold computeNextFrom at h
  split_ifs at h
  rw [searchNext_eq_find] at h
  have := List.find?_some h
  simpa using this

/-- What a successful WEEKLY match with a non-empty weekday set implies. -/
theorem matches_weekly_sound (c b : JSDate) (p : ParsedRecurrence)
    (hf : p.freq = some "WEEKLY".data) (hby : p.byDay ≠ [])
    (hmatch : matchesRecurrence c b p = true) :
    p.byDay.contains (getWeekdayCode c.getDay) = true ∧
    jsModIsZero (((c.getTime - b.getTime) / 86400000) / 7)
      (if p.interval.isZero then JSNum.one else p.interval) = true ∧
    0 < (c.getTime - b.getTime) / 86400000 := by
  have hfr : freqOrDaily p.freq = "WEEKLY".data := by rw [hf]; decide
  have e1 : ("WEEKLY".data = "DAILY".data) = False := eq_false (by decide)
  have e2 : (("WEEKLY".data : List Char) = "WEEKLY".data) = True := eq_true rfl
  have e3 : ("WEEKLY".data = "MONTHLY".data) = False := eq_false (by decide)
  unfold matchesRecurrence at hmatch
  rw [hfr] at hmatch
  simp only [e1, e2, e3, true_and, if_false, reduceIte, Bool.false_eq_true] at hmatch
  by_cases h0 : (c.getTime - b.getTime) / 86400000 ≤ 0
  · rw [if_pos h0] at hmatch
    exact absurd hmatch (by simp)
  · rw [if_neg h0, if_pos (by omega)] at hmatch
    by_cases hjm : jsModIsZero (((c.getTime - b.getTime) / 86400000) / 7)
        (if p.interval.isZero then JSNum.one else p.interval) = true
    · rw [if_neg (by simpa using hjm), if_pos hby] at hmatch
      exact ⟨hmatch, hjm, by omega⟩
    · rw [if_pos (by simpa using hjm)] at hmatch
      exact absurd hmatch (by simp)

/-- C2.  For every WEEKLY rule with a non-empty weekday set and positive
integer interval `n`, any timestamp the search returns carries a weekday
code that is a member of the set, and its `floor(daysDiff / 7)` offset from
the anchor is a multiple of the interval; in particular the parsed rule
`RRULE:FREQ=WEEKLY;BYDAY=MO,WE,FR` with anchor Monday 2024-01-01T09:00
yields Wednesday 2024-01-03T09:00. -/
theorem claim_C2 :
    (∀ (p : ParsedRecurrence) (b c : JSDate) (n : Nat),
      p.freq = some "WEEKLY".data → p.byDay ≠ [] →
      p.interval = ⟨(n : Int), 0⟩ → 1 ≤ n →
      computeNextFrom p b = some c →
      p.byDay.contains (getWeekdayCode c.getDay) = true ∧
      (n : Int) ∣ ((c.getTime - b.getTime) / 86400000) / 7) ∧
    computeNextOccurrence "RRULE:FREQ=WEEKLY;BYDAY=MO,WE,FR" "2024-01-01T09:00" =
      some ⟨2024, 0, 3, 32400000⟩ := by
  constructor
  · intro p b c n hf hby hi hn hrun
    have hnz : ((n : Int)) ≠ 0 := by
      have : (1 : Int) ≤ (n : Int) := by exact_mod_cast hn
      omega
    have hzero : p.interval.isZero = false := by
      rw [hi]; unfold JSNum.isZero; simp [hnz]
    obtain ⟨hmem, hjm, _⟩ :=
      matches_weekly_sound c b p hf hby (computeNextFrom_sound p b c hrun)
    rw [hzero] at hjm
    simp only [Bool.false_eq_true, if_false, reduceIte, hi] at hjm
    exact ⟨hmem, (jsModIsZero_int _ _ hnz).mp hjm⟩
  · decide

/-- Witness for C2: the parsed spec example discharges every hypothesis of
the general statement, and the returned Wednesday candidate indeed carries
a listed weekday code on a qualifying week. -/
theorem claim_C2_witness :
    ((parseRecurrence "RRULE:FREQ=WEEKLY;BYDAY=MO,WE,FR").freq = some "WEEKLY".data ∧
     (parseRecurrence "RRULE:FREQ=WEEKLY;BYDAY=MO,WE,FR").byDay ≠ [] ∧
     (parseRecurrence "RRULE:FREQ=WEEKLY;BYDAY=MO,WE,FR").interval = ⟨((1 : Nat) : Int), 0⟩ ∧
     computeNextFrom (parseRecurrence "RRULE:FREQ=WEEKLY;BYDAY=MO,WE,FR")
       ⟨2024, 0, 1, 32400000⟩ = some ⟨2024, 0, 3, 32400000⟩) ∧
    ((parseRecurrence "RRULE:FREQ=WEEKLY;BYDAY=MO,WE,FR").byDay.contains
       (getWeekdayCode (JSDate.mk 2024 0 3 32400000).getDay) = true ∧
     ((1 : Nat) : Int) ∣ (((JSDate.mk 2024 0 3 32400000).getTime -
       (JSDate.mk 2024 0 1 32400000).getTime) / 86400000) / 7) := by
  refine ⟨⟨by decide, by decide, by decide, by decide⟩, ?_⟩
  exact claim_C2.1 (parseRecurrence "RRULE:FREQ=WEEKLY;BYDAY=MO,WE,FR")
    ⟨2024, 0, 1, 32400000⟩ ⟨2024, 0, 3, 32400000⟩ 1
    (by decide) (by decide) (by decide) (by decide) (by decide)

/-! ## Claim C3: MONTHLY matching -/

/-- C3.  For every MONTHLY rule with positive integer interval `n` and
valid candidate/anchor dates, the matching test succeeds exactly when the
calendar-month difference is strictly positive, divisible by the interval,
and the day-of-month values agree (the implicit whole-day guard of the code
is implied by those conditions); in particular `RRULE:FREQ=MONTHLY` with
anchor 2024-01-15T09:00 yields 2024-02-15T09:00. -/
theorem claim_C3 :
    (∀ (p : ParsedRecurrence) (c b : JSDate) (n : Nat),
      p.freq = some "MONTHLY".data →
      p.interval = ⟨(n : Int), 0⟩ → 1 ≤ n →
      c.Valid → b.Valid →
      (matchesRecurrence c b p = true ↔
        (0 < (c.getFullYear - b.getFullYear) * 12 + (c.getMonth - b.getMonth) ∧
         (n : Int) ∣ (c.getFullYear - b.getFullYear) * 12 + (c.getMonth - b.getMonth) ∧
         c.getDate = b.getDate))) ∧
    computeNextOccurrence "RRULE:FREQ=MONTHLY" "2024-01-15T09:00" =
      some ⟨2024, 1, 15, 32400000⟩ := by
  constructor
  · intro p c b n hf hi hn hc hb
    have hfr : freqOrDaily p.freq = "MONTHLY".data := by rw [hf]; decide
    have hnz : ((n : Int)) ≠ 0 := by
      have : (1 : Int) ≤ (n : Int) := by exact_mod_cast hn
      omega
    have hzero : p.interval.isZero = false := by
      rw [hi]; unfold JSNum.isZero; simp [hnz]
    have e1 : ("MONTHLY".data = "DAILY".data) = False := eq_false (by decide)
    have e2 : ("MONTHLY".data = "WEEKLY".data) = False := eq_false (by decide)
    have e3 : (("MONTHLY".data : List Char) = "MONTHLY".data) = True := eq_true rfl
    unfold matchesRecurrence
    rw [hfr, hzero, hi]
    simp only [e1, e2, e3, false_and, if_false, Bool.false_eq_true, reduceIte]
    unfold JSDate.getFullYear JSDate.getMonth JSDate.getDate
    constructor
    · intro hm
      by_cases h0 : (c.getTime - b.getTime) / 86400000 ≤ 0
      · rw [if_pos h0] at hm
        exact absurd hm (by simp)
      · rw [if_neg h0] at hm
        by_cases hmd : (c.year - b.year) * 12 + (c.month - b.month) ≤ 0
        · rw [if_pos hmd] at hm
          exact absurd hm (by simp)
        · rw [if_neg hmd] at hm
          by_cases hjm : jsModIsZero ((c.year - b.year) * 12 + (c.month - b.month))
              ⟨(n : Int), 0⟩ = true
          · rw [if_neg (by simpa using hjm)] at hm
            refine ⟨by omega, (jsModIsZero_int _ _ hnz).mp hjm, by simpa using hm⟩
          · rw [if_pos (by simpa using hjm)] at hm
            exact absurd hm (by simp)
    · rintro ⟨hpos, hdvd, hday⟩
      have hlt : b.year * 12 + b.month < c.year * 12 + c.month := by omega
      have hge := getTime_ge_of_month_lt c b hc hb hlt hday
      have h0 : ¬ ((c.getTime - b.getTime) / 86400000 ≤ 0) := by omega
      rw [if_neg h0, if_neg (by omega),
        if_neg (by simp [(jsModIsZero_int _ _ hnz).mpr hdvd])]
      simpa using hday
  · decide

/-- Witness for C3: the parsed spec example; the candidate 2024-02-15T09:00
satisfies the three-way characterisation against anchor 2024-01-15T09:00. -/
theorem claim_C3_witness :
    ((parseRecurrence "RRULE:FREQ=MONTHLY").freq = some "MONTHLY".data ∧
     (parseRecurrence "RRULE:FREQ=MONTHLY").interval = ⟨((1 : Nat) : Int), 0⟩ ∧
     (JSDate.mk 2024 1 15 32400000).Valid ∧ (JSDate.mk 2024 0 15 32400000).Valid) ∧
    matchesRecurrence ⟨2024, 1, 15, 32400000⟩ ⟨2024, 0, 15, 32400000⟩
      (parseRecurrence "RRULE:FREQ=MONTHLY") = true := by
  refine ⟨⟨by decide, by decide, by decide, by decide⟩, ?_⟩
  refine ((claim_C3.1 (parseRecurrence "RRULE:FREQ=MONTHLY")
    ⟨2024, 1, 15, 32400000⟩ ⟨2024, 0, 15, 32400000⟩ 1
    (by decide) (by decide) (by decide) (by decide) (by decide)).mpr ?_)
  refine ⟨by decide, by decide, by decide⟩

/-! ## Claim C4: bounded search -/

/-- C4.  The occurrence search is total and bounded: it advances and tests
exactly the 500-element chain of stepped candidates; it returns `none`
whenever no candidate in that chain matches (in particular for rules whose
constraints can never be satisfied), and anything it returns is a matching
member of the chain. -/
theorem claim_C4 (p : ParsedRecurrence) (b : JSDate) :
    (candChain p 500 b).length = 500 ∧
    ((∀ c ∈ candChain p 500 b, matchesRecurrence c b p = false) →
      computeNextFrom p b = none) ∧
    (∀ c, computeNextFrom p b = some c →
      c ∈ candChain p 500 b ∧ matchesRecurrence c b p = true) := by
  refine ⟨candChain_length p 500 b, ?_, ?_⟩
  · intro hall
    unfold computeNextFrom
    split_ifs
    · rfl
    · rw [searchNext_eq_find]
      rw [List.find?_eq_none]
      intro c hc
      simp [hall c hc]
  · intro c hsome
    unfold computeNextFrom at hsome
    split_ifs at hsome
    rw [searchNext_eq_find] at hsome
    refine ⟨List.mem_of_find?_eq_some hsome, ?_⟩
    have := List.find?_some hsome
    simpa using this

/-- Witness for C4: `RRULE:FREQ=DAILY;INTERVAL=501` can never match inside
the bound (the first qualifying day is step 501), and the search indeed
returns `none`. -/
theorem claim_C4_witness :
    (∀ c ∈ candChain (parseRecurrence "RRULE:FREQ=DAILY;INTERVAL=501") 500
        ⟨2024, 0, 1, 32400000⟩,
      matchesRecurrence c ⟨2024, 0, 1, 32400000⟩
        (parseRecurrence "RRULE:FREQ=DAILY;INTERVAL=501") = false) ∧
    computeNextFrom (parseRecurrence "RRULE:FREQ=DAILY;INTERVAL=501")
      ⟨2024, 0, 1, 32400000⟩ = none := by
  have hall : ∀ c ∈ candChain (parseRecurrence "RRULE:FREQ=DAILY;INTERVAL=501") 500
      ⟨2024, 0, 1, 32400000⟩,
      matchesRecurrence c ⟨2024, 0, 1, 32400000⟩
        (parseRecurrence "RRULE:FREQ=DAILY;INTERVAL=501") = false := by decide
  exact ⟨hall,
    (claim_C4 (parseRecurrence "RRULE:FREQ=DAILY;INTERVAL=501")
      ⟨2024, 0, 1, 32400000⟩).2.1 hall⟩

/-! ## Claim C5: successor naming -/

/-- Counterexample to C5 as stated: when the target stamp equals the
existing trailing stamp, the `replaced !== baseName` change-detection
fails (the replacement is the identity), so the generator takes the append
branch and produces a name with two date stamps at the end. -/
theorem claim_C5_counterexample :
    generateNextName "Weekly Report 2024-01-08.md" ⟨2024, 0, 8, 0⟩ =
      "Weekly Report 2024-01-08 2024-01-08.md" := by decide

theorem dateStamp_length (d : JSDate) : (dateStamp d).length = 10 := by
  simp [dateStamp, pad4, pad2]

/-- C5 (amended).  For every source name whose base (after the extension
split and trimming) ends with a `YYYY-MM-DD`-shaped token, and every target
date whose stamp differs from that token, the generator rewrites exactly
the trailing token: the result is the trimmed prefix, one space, the new
stamp, and the unchanged extension. -/
theorem claim_C5_amended (name : String) (d : JSDate)
    (base ext : List Char)
    (hsplit : splitExt name.data = (base, ext))
    (hlen : 10 ≤ (trimChars base).length)
    (hshape : isDateShape ((trimChars base).drop ((trimChars base).length - 10)) = true)
    (hne : dateStamp d ≠ (trimChars base).drop ((trimChars base).length - 10)) :
    generateNextName name d =
      ⟨trimChars (trimChars ((trimChars base).take ((trimChars base).length - 10)) ++
        ' ' :: dateStamp d) ++ ext⟩ := by
  have hds10 : (dateStamp d).length = 10 := dateStamp_length d
  have hrepl : replaceTrailingDate (trimChars base) (dateStamp d) =
      trimChars ((trimChars base).take ((trimChars base).length - 10)) ++
        ' ' :: dateStamp d := by
    unfold replaceTrailingDate
    rw [if_pos ⟨hlen, hshape⟩]
  have hneq : trimChars ((trimChars base).take ((trimChars base).length - 10)) ++
      ' ' :: dateStamp d ≠ trimChars base := by
    intro heq
    have heq2 : (trimChars ((trimChars base).take ((trimChars base).length - 10)) ++ [' ']) ++
        dateStamp d =
        (trimChars base).take ((trimChars base).length - 10) ++
          (trimChars base).drop ((trimChars base).length - 10) := by
      calc (trimChars ((trimChars base).take ((trimChars base).length - 10)) ++ [' ']) ++
            dateStamp d
          = trimChars ((trimChars base).take ((trimChars base).length - 10)) ++
            ' ' :: dateStamp d := by simp
        _ = trimChars base := heq
        _ = _ := (List.take_append_drop _ _).symm
    have hlend : ((trimChars base).drop ((trimChars base).length - 10)).length = 10 := by
      rw [List.length_drop]
      omega
    have hinj := List.append_inj' heq2 (by rw [hds10, hlend])
    exact hne hinj.2
  unfold generateNextName
  rw [hsplit]
  simp only [hrepl]
  rw [if_pos hneq]

/-- Witness for C5 (amended): the spec example, where the stamps differ and
the trailing token is replaced. -/
theorem claim_C5_witness :
    (splitExt "Weekly Report 2024-01-01.md".data =
       ("Weekly Report 2024-01-01".data, ".md".data) ∧
     10 ≤ (trimChars "Weekly Report 2024-01-01".data).length ∧
     isDateShape ((trimChars "Weekly Report 2024-01-01".data).drop
       ((trimChars "Weekly Report 2024-01-01".data).length - 10)) = true ∧
     dateStamp ⟨2024, 0, 8, 0⟩ ≠ (trimChars "Weekly Report 2024-01-01".data).drop
       ((trimChars "Weekly Report 2024-01-01".data).length - 10)) ∧
    generateNextName "Weekly Report 2024-01-01.md" ⟨2024, 0, 8, 0⟩ =
      "Weekly Report 2024-01-08.md" := by
  refine ⟨⟨by decide, by decide, by decide, by decide⟩, ?_⟩
  exact (claim_C5_amended "Weekly Report 2024-01-01.md" ⟨2024, 0, 8, 0⟩
    "Weekly Report 2024-01-01".data ".md".data
    (by decide) (by decide) (by decide) (by decide)).trans (by decide)

/-! ## Claim C6: destination collision guard -/

/-- The destination path the workflow computes (defined when the guarded
reads and the occurrence search all succeed, mirroring the prefix of
`handleRecurrenceCompletion` before the collision check). -/
def recurrenceDest (fileName parentPath : String) (fm : FM) : Option String :=
  let recurrence := getRecurrenceValue fm
  if recurrence = "" then none
  else
    let scheduledVal := fmGet fm "scheduled"
    if jsFalsy scheduledVal then none
    else
      match computeNextOccurrenceAux recurrence (jsValToDate scheduledVal) with
      | none => none
      | some nextDate =>
        let newName := generateNextName fileName nextDate
        some (if parentPath ≠ "" then parentPath ++ "/" ++ newName else newName)

/-- C6.  If an artifact already exists at the computed destination path,
the completion workflow changes nothing: no artifact is created and the
source record (like every other record in the store) is left untouched. -/
theorem claim_C6 (st : Vault) (filePath fileName parentPath : String) (fm : FM)
    (dest : String)
    (hdest : recurrenceDest fileName parentPath fm = some dest)
    (hexists : (vaultGet st dest).isSome = true) :
    handleRecurrenceCompletion st filePath fileName parentPath fm = st := by
  unfold recurrenceDest at hdest
  unfold handleRecurrenceCompletion
  by_cases h1 : getRecurrenceValue fm = ""
  · rw [if_pos h1]
  · rw [if_neg h1] at hdest ⊢
    by_cases h2 : jsFalsy (fmGet fm "scheduled") = true
    · rw [if_pos h2] at hdest
      cases hdest
    · rw [if_neg h2] at hdest ⊢
      cases hnext : computeNextOccurrenceAux (getRecurrenceValue fm)
          (jsValToDate (fmGet fm "scheduled")) with
      | none => rw [hnext] at hdest
      | some nextDate =>
          rw [hnext] at hdest
          dsimp only at hdest ⊢
          rw [Option.some_inj] at hdest
          rw [hdest, if_pos hexists]

/-- Witness for C6: a concrete vault where the successor name
`Task 2024-01-02.md` is already occupied; the workflow is the identity. -/
theorem claim_C6_witness :
    (recurrenceDest "Task 2024-01-01.md" ""
       [("recurrenceRule", .str "RRULE:FREQ=DAILY"),
        ("scheduled", .str "2024-01-01T09:00"), ("status", .str "complete")] =
       some "Task 2024-01-02.md" ∧
     (vaultGet
        [("Task 2024-01-01.md",
          [("recurrenceRule", .str "RRULE:FREQ=DAILY"),
           ("scheduled", .str "2024-01-01T09:00"), ("status", .str "complete")]),
         ("Task 2024-01-02.md", [("status", .str "open")])]
        "Task 2024-01-02.md").isSome = true) ∧
    handleRecurrenceCompletion
      [("Task 2024-01-01.md",
        [("recurrenceRule", .str "RRULE:FREQ=DAILY"),
         ("scheduled", .str "2024-01-01T09:00"), ("status", .str "complete")]),
       ("Task 2024-01-02.md", [("status", .str "open")])]
      "Task 2024-01-01.md" "Task 2024-01-01.md" ""
      [("recurrenceRule", .str "RRULE:FREQ=DAILY"),
       ("scheduled", .str "2024-01-01T09:00"), ("status", .str "complete")] =
    [("Task 2024-01-01.md",
      [("recurrenceRule", .str "RRULE:FREQ=DAILY"),
       ("scheduled", .str "2024-01-01T09:00"), ("status", .str "complete")]),
     ("Task 2024-01-02.md", [("status", .str "open")])] := by
  refine ⟨⟨by decide, by decide⟩, ?_⟩
  exact claim_C6 _ "Task 2024-01-01.md" "Task 2024-01-01.md" ""
    [("recurrenceRule", .str "RRULE:FREQ=DAILY"),
     ("scheduled", .str "2024-01-01T09:00"), ("status", .str "complete")]
    "Task 2024-01-02.md" (by decide) (by decide)

/-! ## Claim C7: parser robustness -/

/-- Syntactic test for a `KEY=VALUE` part that the `forEach` body ignores:
missing or empty key/value, an unrecognised key, or an `INTERVAL` whose
value is non-numeric or non-positive. -/
def inertPart (part : List Char) : Bool :=
  match splitOnChar '=' part with
  | [] => true
  | [_] => true
  | key :: val :: _ =>
      if key = [] ∨ val = [] then true
      else
        let k := upperChars (trimChars key)
        if k = "FREQ".data then false
        else if k = "INTERVAL".data then
          match jsNumber (trimChars val) with
          | none => true
          | some num => decide (num.n ≤ 0)
        else if k = "BYDAY".data then false
        else true

/-- An inert part leaves the parser state untouched. -/
theorem parsePart_inert (st : ParsedRecurrence) (part : List Char)
    (h : inertPart part = true) : parsePart st part = st := by
  unfold inertPart at h
  unfold parsePart
  cases hsplit : splitOnChar '=' part with
  | nil => rfl
  | cons key tl =>
      cases tl with
      | nil => rfl
      | cons val rest =>
          rw [hsplit] at h
          dsimp only at h ⊢
          by_cases hkv : key = [] ∨ val = []
          · rw [if_pos hkv]
          · rw [if_neg hkv] at h ⊢
            by_cases hf : upperChars (trimChars key) = "FREQ".data
            · rw [if_pos hf] at h
              cases h
            · rw [if_neg hf] at h ⊢
              by_cases hi : upperChars (trimChars key) = "INTERVAL".data
              · rw [if_pos hi] at h ⊢
                cases hnum : jsNumber (trimChars val) with
                | none => rfl
                | some num =>
                    rw [hnum] at h
                    dsimp only at h ⊢
                    have hle : num.n ≤ 0 := of_decide_eq_true h
                    rw [if_neg (by omega)]
              · rw [if_neg hi] at h ⊢
                by_cases hb : upperChars (trimChars key) = "BYDAY".data
                · rw [if_pos hb] at h
                  cases h
                · rw [if_neg hb]

/-- A fold over inert parts goes nowhere. -/
theorem foldl_parsePart_inert (parts : List (List Char)) :
    ∀ st : ParsedRecurrence, (∀ part ∈ parts, inertPart part = true) →
      parts.foldl parsePart st = st := by
  induction parts with
  | nil => intro st _; rfl
  | cons p tl ih =>
      intro st hall
      rw [List.foldl_cons, parsePart_inert st p (hall p (List.mem_cons_self p tl))]
      exact ih st (fun q hq => hall q (List.mem_cons_of_mem p hq))

/-- C7.  The parser is a total function (it can never raise): empty input
yields the inert rule (frequency `null`, interval 1, no weekdays); so does
any input all of whose `;`-parts are ignored (malformed pairs, unknown
keys, invalid `INTERVAL` values); and an invalid `INTERVAL` part leaves the
interval at its prior value — indeed leaves the whole accumulated rule
unchanged. -/
theorem claim_C7 :
    parseRecurrence "" = inertRule ∧
    (∀ s : String,
      (∀ part ∈ splitOnChar ';' (trimChars (stripRRuleMarker s.data)),
        inertPart part = true) →
      parseRecurrence s = inertRule) ∧
    (∀ (st : ParsedRecurrence) (part key val : List Char) (rest : List (List Char)),
      splitOnChar '=' part = key :: val :: rest →
      ¬ (key = [] ∨ val = []) →
      upperChars (trimChars key) = "INTERVAL".data →
      (jsNumber (trimChars val) = none ∨
        ∃ q : JSNum, jsNumber (trimChars val) = some q ∧ q.n ≤ 0) →
      parsePart st part = st ∧ (parsePart st part).interval = st.interval) := by
  refine ⟨by decide, ?_, ?_⟩
  · intro s hall
    unfold parseRecurrence
    dsimp only
    split_ifs with hbody
    · rfl
    · exact foldl_parsePart_inert _ inertRule hall
  · intro st part key val rest hsplit hkv hik hbad
    have hinert : inertPart part = true := by
      unfold inertPart
      rw [hsplit]
      dsimp only
      rw [if_neg hkv]
      rw [if_neg (by rw [hik]; decide), if_pos hik]
      rcases hbad with hnone | ⟨q, hq, hle⟩
      · rw [hnone]
      · rw [hq]
        simpa using hle
    have h := parsePart_inert st part hinert
    exact ⟨h, by rw [h]⟩

/-- Witness for C7: a rule text made only of unknown keys, malformed pairs
and invalid intervals parses to the inert rule, and one invalid `INTERVAL`
part is a no-op on a nontrivial parser state. -/
theorem claim_C7_witness :
    ((∀ part ∈ splitOnChar ';'
        (trimChars (stripRRuleMarker "RRULE:UNTIL=20240101;COUNT=3;INTERVAL=0;FOO;=;INTERVAL=abc".data)),
      inertPart part = true) ∧
     parseRecurrence "RRULE:UNTIL=20240101;COUNT=3;INTERVAL=0;FOO;=;INTERVAL=abc" = inertRule) ∧
    (splitOnChar '=' "INTERVAL=-3".data = ("INTERVAL".data :: "-3".data :: []) ∧
     parsePart ⟨some "DAILY".data, ⟨7, 0⟩, ["MO".data]⟩ "INTERVAL=-3".data =
       ⟨some "DAILY".data, ⟨7, 0⟩, ["MO".data]⟩) := by
  refine ⟨⟨by decide, ?_⟩, by decide, ?_⟩
  · exact claim_C7.2.1 _ (by decide)
  · exact (claim_C7.2.2 ⟨some "DAILY".data, ⟨7, 0⟩, ["MO".data]⟩
      "INTERVAL=-3".data "INTERVAL".data "-3".data [] (by decide) (by decide) (by decide)
      (Or.inr ⟨⟨-3, 0⟩, by decide, by decide⟩)).1

/-! ## Claim C8: unrecognised frequencies -/

/-- Counterexample to C8 as stated: `FREQ=YEARLY` does *not* behave like
DAILY — the DAILY rule yields the next day while the YEARLY rule yields
nothing (its matching test always fails, so the 500-step search is
exhausted). -/
theorem claim_C8_counterexample :
    computeNextOccurrence "RRULE:FREQ=YEARLY" "2024-01-01T09:00" = none ∧
    computeNextOccurrence "RRULE:FREQ=DAILY" "2024-01-01T09:00" =
      some ⟨2024, 0, 2, 32400000⟩ := by
  constructor
  · decide
  · decide

/-- C8 (amended).  A present, non-empty frequency other than DAILY, WEEKLY
or MONTHLY steps by one day exactly like DAILY, but the matching test
returns `false` for every candidate (the final `freq === 'DAILY'` line),
so `nextOccurrence` always returns `none` instead of the DAILY result. -/
theorem claim_C8_amended (p : ParsedRecurrence) (f : List Char)
    (hf : p.freq = some f) (hne : f ≠ [])
    (hd : f ≠ "DAILY".data) (hw : f ≠ "WEEKLY".data) (hm : f ≠ "MONTHLY".data) :
    (∀ d : JSDate, incrementRecurrence d p = d.addDay) ∧
    (∀ c b : JSDate, matchesRecurrence c b p = false) ∧
    (∀ b : JSDate, computeNextFrom p b = none) := by
  have hfr : freqOrDaily p.freq = f := by
    unfold freqOrDaily
    rw [hf]
    exact if_neg hne
  have hstep : ∀ d : JSDate, incrementRecurrence d p = d.addDay := by
    intro d
    unfold incrementRecurrence
    rw [hfr, if_neg hm]
  have hmat : ∀ c b : JSDate, matchesRecurrence c b p = false := by
    intro c b
    unfold matchesRecurrence
    rw [hfr]
    by_cases h0 : (c.getTime - b.getTime) / 86400000 ≤ 0
    · rw [if_pos h0]
    · rw [if_neg h0, if_neg hd, if_neg (by simp [hw]), if_neg hm]
      exact decide_eq_false hd
  refine ⟨hstep, hmat, ?_⟩
  intro b
  unfold computeNextFrom
  split_ifs
  · rfl
  · rw [searchNext_eq_find, List.find?_eq_none]
    intro c hc
    simp [hmat c b]

/-- Witness for C8 (amended): the parsed `FREQ=YEARLY` rule steps by one
day yet never matches, and the full search returns `none`. -/
theorem claim_C8_witness :
    ((parseRecurrence "RRULE:FREQ=YEARLY").freq = some "YEARLY".data ∧
     "YEARLY".data ≠ ([] : List Char) ∧
     "YEARLY".data ≠ "DAILY".data ∧ "YEARLY".data ≠ "WEEKLY".data ∧
     "YEARLY".data ≠ "MONTHLY".data) ∧
    (incrementRecurrence ⟨2024, 0, 1, 32400000⟩ (parseRecurrence "RRULE:FREQ=YEARLY") =
       (JSDate.mk 2024 0 1 32400000).addDay ∧
     matchesRecurrence ⟨2024, 0, 2, 32400000⟩ ⟨2024, 0, 1, 32400000⟩
       (parseRecurrence "RRULE:FREQ=YEARLY") = false ∧
     computeNextFrom (parseRecurrence "RRULE:FREQ=YEARLY") ⟨2024, 0, 1, 32400000⟩ = none) := by
  refine ⟨⟨by decide, by decide, by decide, by decide, by decide⟩, ?_⟩
  have h := claim_C8_amended (parseRecurrence "RRULE:FREQ=YEARLY") "YEARLY".data
    (by decide) (by decide) (by decide) (by decide) (by decide)
  exact ⟨h.1 _, h.2.1 _ _, h.2.2 _⟩

/-! ## Claim C9: interval invariant -/

/-- Syntactic test for a part that assigns a (valid, positive) `INTERVAL`. -/
def setsIntervalPart (part : List Char) : Bool :=
  match splitOnChar '=' part with
  | key :: val :: _ =>
      if key = [] ∨ val = [] then false
      else if upperChars (trimChars key) = "INTERVAL".data then
        match jsNumber (trimChars val) with
        | none => false
        | some num => decide (0 < num.n)
      else false
  | _ => false

/-- A part that does not assign an interval leaves the field unchanged. -/
theorem parsePart_interval_const (st : ParsedRecurrence) (part : List Char)
    (h : setsIntervalPart part = false) :
    (parsePart st part).interval = st.interval := by
  unfold setsIntervalPart at h
  unfold parsePart
  cases hsplit : splitOnChar '=' part with
  | nil => rfl
  | cons key tl =>
      cases tl with
      | nil => rfl
      | cons val rest =>
          rw [hsplit] at h
          dsimp only at h ⊢
          by_cases hkv : key = [] ∨ val = []
          · rw [if_pos hkv]
          · rw [if_neg hkv] at h ⊢
            by_cases hf : upperChars (trimChars key) = "FREQ".data
            · rw [if_pos hf]
            · rw [if_neg hf]
              by_cases hi : upperChars (trimChars key) = "INTERVAL".data
              · rw [if_pos hi] at h ⊢
                cases hnum : jsNumber (trimChars val) with
                | none => rfl
                | some num =>
                    rw [hnum] at h
                    dsimp only at h ⊢
                    rw [if_neg (by simpa using h)]
              · rw [if_neg hi] at h ⊢
                by_cases hb : upperChars (trimChars key) = "BYDAY".data
                · rw [if_pos hb]
                · rw [if_neg hb]

/-- Any single parse step keeps the interval numerator positive. -/
theorem parsePart_interval_pos (st : ParsedRecurrence) (part : List Char)
    (h : 0 < st.interval.n) : 0 < (parsePart st part).interval.n := by
  unfold parsePart
  cases splitOnChar '=' part with
  | nil => exact h
  | cons key tl =>
      cases tl with
      | nil => exact h
      | cons val rest =>
          dsimp only
          split_ifs with h1 h2 h3 h4
          · exact h
          · exact h
          · cases hnum : jsNumber (trimChars val) with
            | none => exact h
            | some num =>
                dsimp only
                split_ifs with h5
                · exact h5
                · exact h
          · exact h
          · exact h

/-- The parsed interval numerator stays positive along the whole fold. -/
theorem foldl_interval_pos (parts : List (List Char)) :
    ∀ st : ParsedRecurrence, 0 < st.interval.n →
      0 < (parts.foldl parsePart st).interval.n := by
  induction parts with
  | nil => intro st h; exact h
  | cons p tl ih =>
      intro st h
      rw [List.foldl_cons]
      exact ih _ (parsePart_interval_pos st p h)

/-- A fold over parts none of which assigns an interval keeps the field. -/
theorem foldl_interval_const (parts : List (List Char)) :
    ∀ st : ParsedRecurrence, (∀ part ∈ parts, setsIntervalPart part = false) →
      (parts.foldl parsePart st).interval = st.interval := by
  induction parts with
  | nil => intro st _; rfl
  | cons p tl ih =>
      intro st hall
      rw [List.foldl_cons,
        ih _ (fun q hq => hall q (List.mem_cons_of_mem p hq)),
        parsePart_interval_const st p (hall p (List.mem_cons_self p tl))]

/-- Counterexample to C9 as stated: `INTERVAL=2.5` is numeric and positive,
so the parser accepts it; the resulting interval is `2.5`, a positive
number that is *not* an integer. -/
theorem claim_C9_counterexample :
    (parseRecurrence "RRULE:FREQ=DAILY;INTERVAL=2.5").interval = ⟨25, 1⟩ ∧
    ¬ (parseRecurrence "RRULE:FREQ=DAILY;INTERVAL=2.5").interval.IsInt := by
  constructor
  · decide
  · decide

/-- C9 (amended).  For every input string the parsed interval is a positive
number (positive numerator of the exact decimal value), and it equals 1
whenever no part supplies a valid positive `INTERVAL`; it need not be an
integer, since fractional numeric values such as `2.5` are accepted. -/
theorem claim_C9_amended :
    (∀ s : String, 0 < (parseRecurrence s).interval.n) ∧
    (∀ s : String,
      (∀ part ∈ splitOnChar ';' (trimChars (stripRRuleMarker s.data)),
        setsIntervalPart part = false) →
      (parseRecurrence s).interval = JSNum.one) := by
  constructor
  · intro s
    unfold parseRecurrence
    dsimp only
    split_ifs
    · decide
    · exact foldl_interval_pos _ inertRule (by decide)
  · intro s hall
    unfold parseRecurrence
    dsimp only
    split_ifs
    · rfl
    · exact foldl_interval_const _ inertRule hall

/-- Witness for C9 (amended): both conjuncts at concrete rule texts. -/
theorem claim_C9_witness :
    0 < (parseRecurrence "RRULE:FREQ=DAILY;INTERVAL=2.5").interval.n ∧
    ((∀ part ∈ splitOnChar ';'
        (trimChars (stripRRuleMarker "RRULE:FREQ=WEEKLY;INTERVAL=0;BYDAY=MO".data)),
      setsIntervalPart part = false) ∧
     (parseRecurrence "RRULE:FREQ=WEEKLY;INTERVAL=0;BYDAY=MO").interval = JSNum.one) := by
  refine ⟨claim_C9_amended.1 _, by decide, claim_C9_amended.2 _ (by decide)⟩

/-! ## Claim C10: non-string recurrence values -/

/-- `typeof v === 'string'`. -/
def JSVal.isStr : JSVal → Bool
  | .str _ => true
  | _ => false

/-- Counterexample to C10 as stated: `recurrenceRule` is present and holds
a non-string value (the number `0`), but because `0` is falsy the `||`
fallback reads the legacy `recurrence` field, which here holds a string —
so the recurrence value is *not* read as the empty string (and the task
would spawn a successor). -/
theorem claim_C10_counterexample :
    (fmGet [("recurrenceRule", .num ⟨0, 0⟩), ("recurrence", .str "RRULE:FREQ=DAILY")]
       "recurrenceRule").isStr = false ∧
    getRecurrenceValue
      [("recurrenceRule", .num ⟨0, 0⟩), ("recurrence", .str "RRULE:FREQ=DAILY")] =
      "RRULE:FREQ=DAILY" := by
  constructor
  · decide
  · decide

/-- C10 (amended).  If *each* of `recurrenceRule` and the legacy
`recurrence` field is absent or holds a non-string value (a list, a
number, …), the recurrence value is read as the empty string, and the
completion workflow is a no-op on the store: no successor, no error, no
field change — exactly as if no rule were set. -/
theorem claim_C10_amended (fm : FM) (st : Vault) (filePath fileName parentPath : String)
    (h1 : (fmGet fm "recurrenceRule").isStr = false)
    (h2 : (fmGet fm "recurrence").isStr = false) :
    getRecurrenceValue fm = "" ∧
    handleRecurrenceCompletion st filePath fileName parentPath fm = st := by
  have hval : getRecurrenceValue fm = "" := by
    unfold getRecurrenceValue
    dsimp only
    split_ifs
    · cases hv : fmGet fm "recurrence" with
      | str s => rw [hv] at h2; cases h2
      | undefv => rfl
      | nullv => rfl
      | boolv b => rfl
      | num q => rfl
      | list l => rfl
    · cases hv : fmGet fm "recurrenceRule" with
      | str s => rw [hv] at h1; cases h1
      | undefv => rfl
      | nullv => rfl
      | boolv b => rfl
      | num q => rfl
      | list l => rfl
  refine ⟨hval, ?_⟩
  unfold handleRecurrenceCompletion
  rw [hval, if_pos rfl]

/-- Witness for C10 (amended): a record whose recurrence fields hold a
list and a number is treated as rule-free; the workflow changes nothing. -/
theorem claim_C10_witness :
    ((fmGet [("recurrenceRule", .list ["RRULE:FREQ=DAILY"]),
             ("recurrence", .num ⟨3, 0⟩),
             ("scheduled", .str "2024-01-01T09:00")] "recurrenceRule").isStr = false ∧
     (fmGet [("recurrenceRule", .list ["RRULE:FREQ=DAILY"]),
             ("recurrence", .num ⟨3, 0⟩),
             ("scheduled", .str "2024-01-01T09:00")] "recurrence").isStr = false) ∧
    (getRecurrenceValue [("recurrenceRule", .list ["RRULE:FREQ=DAILY"]),
       ("recurrence", .num ⟨3, 0⟩), ("scheduled", .str "2024-01-01T09:00")] = "" ∧
     handleRecurrenceCompletion
       [("Task.md", [("status", .str "complete")])]
       "Task.md" "Task.md" ""
       [("recurrenceRule", .list ["RRULE:FREQ=DAILY"]),
        ("recurrence", .num ⟨3, 0⟩), ("scheduled", .str "2024-01-01T09:00")] =
       [("Task.md", [("status", .str "complete")])]) := by
  refine ⟨⟨by decide, by decide⟩, ?_⟩
  exact claim_C10_amended
    [("recurrenceRule", .list ["RRULE:FREQ=DAILY"]),
     ("recurrence", .num ⟨3, 0⟩), ("scheduled", .str "2024-01-01T09:00")]
    [("Task.md", [("status", .str "complete")])] "Task.md" "Task.md" ""
    (by decide) (by decide)

end TPS
